import Mathlib

/-!
Verification of the analytics snapshot/plot subsystem of the `ai-land`
dashboard, shallowly embedded in Lean.

Sources embedded here:
* `supabase/migrations/20251104000000_update_analytics_interval.sql`
  (the stored procedure `insert_analytics_snapshot`);
* `src/components/ModelCountLineGraph.tsx`
  (`collectAnalyticsData`, `saveAnalyticsSnapshot`, `filteredData`,
  `chartData`, `yAxisConfig`, `clearData`).

Modelling conventions:
* Timestamps are milliseconds since the Unix epoch, as `Int` (JavaScript
  `Date.getTime()` values; negative values are dates before 1970).
* A UTC calendar day (`timestamp.toISOString().split('T')[0]`) is modelled
  by the floor division of the millisecond timestamp by 86 400 000: two
  timestamps render the same `YYYY-MM-DD` string exactly when those floor
  divisions agree.
* JavaScript numbers are modelled as exact integers; all arithmetic in the
  embedded code stays far inside the double-precision safe-integer range.
  `Math.ceil(x * 0.5)` and `Math.ceil(x * 0.1)` on a non-negative integer
  `x` are the ceiling divisions by 2 and 10, `Math.max(0, a - b)` on
  naturals is truncated subtraction.
* JavaScript objects used as `{[key: string]: number}` maps are modelled
  as association lists with unique keys; `obj[k] || 0` is lookup with
  default 0 (a stored count of 0 is also reported as 0, as with `||`).
-/

namespace AiLand

/-- One persisted analytics snapshot (a row of `analytics_history`,
without its surrogate `id`): server-assigned timestamp, total model
count, and the two provider-count maps. -/
structure Snapshot where
  timestamp : Int
  totalCount : Nat
  inferenceProviderCounts : List (String × Nat)
  modelProviderCounts : List (String × Nat)
deriving DecidableEq, Repr

/-- Milliseconds per UTC calendar day. -/
def msPerDay : Int := 86400000

/-- UTC calendar-day key of a millisecond timestamp: the floor division
by `msPerDay` (two timestamps produce the same
`toISOString().split('T')[0]` string iff they have the same `dayKey`). -/
def dayKey (t : Int) : Int := Int.fdiv t msPerDay

/-- The time-range selector of the trend view
(`'24h' | '7d' | '30d' | 'all'`). -/
inductive TimeRange where
  | h24 : TimeRange
  | d7 : TimeRange
  | d30 : TimeRange
  | all : TimeRange
deriving DecidableEq, Repr

/-- Cutoff for a time range, from `ModelCountLineGraph.tsx` lines
190-198: `now - 24h`, `now - 7d`, `now - 30d`, or `new Date(0)` (the
epoch). -/
def cutoffTime (now : Int) : TimeRange → Int
  | TimeRange.h24 => now - 24 * 60 * 60 * 1000
  | TimeRange.d7 => now - 7 * 24 * 60 * 60 * 1000
  | TimeRange.d30 => now - 30 * 24 * 60 * 60 * 1000
  | TimeRange.all => 0

/-- Twelve hours in milliseconds, the `INTERVAL '12 hours'` of the
current guard policy. -/
def hours12 : Int := 12 * 60 * 60 * 1000

/-- Timestamp of the most recent stored row:
`SELECT timestamp FROM analytics_history ORDER BY timestamp DESC LIMIT 1`,
i.e. the maximum stored timestamp (`none` when the table is empty). -/
def mostRecentTs : List Snapshot → Option Int
  | [] => none
  | s :: rest =>
    some (match mostRecentTs rest with
      | none => s.timestamp
      | some m => max s.timestamp m)

/-- The stored procedure `insert_analytics_snapshot` from
`20251104000000_update_analytics_interval.sql`: read the most recent
timestamp; if none exists or at least 12 hours have passed, insert one
row with the given fields and return `true`, else insert nothing and
return `false`.  The inserted row's timestamp is the transaction time
`now` (the `timestamp` column's `DEFAULT now()`; the table DDL is not in
the sources, this default is taken from spec §4.1 "insert a new row with
`timestamp = now`"). -/
def insert_analytics_snapshot (st : List Snapshot) (now : Int)
    (p_total_models : Nat)
    (p_inference_provider_counts p_model_provider_counts : List (String × Nat)) :
    Bool × List Snapshot :=
  match mostRecentTs st with
  | none =>
    (true, st ++ [⟨now, p_total_models, p_inference_provider_counts,
      p_model_provider_counts⟩])
  | some last_entry =>
    if hours12 ≤ now - last_entry then
      (true, st ++ [⟨now, p_total_models, p_inference_provider_counts,
        p_model_provider_counts⟩])
    else
      (false, st)

/-- One candidate submission to the guard: the client-side clock time of
the polling cycle and the payload passed to the RPC. -/
structure Submission where
  time : Int
  totalModels : Nat
  infCounts : List (String × Nat)
  modCounts : List (String × Nat)
deriving DecidableEq, Repr

/-- Run a sequence of guarded inserts against a store, each at its
submission's time, discarding the returned booleans. -/
def runInserts (st : List Snapshot) (subs : List Submission) : List Snapshot :=
  subs.foldl
    (fun acc sub =>
      (insert_analytics_snapshot acc sub.time sub.totalModels
        sub.infCounts sub.modCounts).2)
    st

/-- Increment the count stored under key `k` of a provider-count map
(`counts[k] = (counts[k] || 0) + 1` on a JavaScript object): the first
entry with key `k` is bumped, or a fresh entry `(k, 1)` is appended. -/
def bump : List (String × Nat) → String → List (String × Nat)
  | [], k => [(k, 1)]
  | (k', v) :: rest, k =>
    if k' = k then (k', v + 1) :: rest else (k', v) :: bump rest k

/-- Sum of the values of a provider-count map. -/
def sumVals (m : List (String × Nat)) : Nat := (m.map Prod.snd).sum

/-- Lookup with default 0 (`countsMap[provider] || 0`). -/
def lookupProv : List (String × Nat) → String → Nat
  | [], _ => 0
  | (k', v) :: rest, k => if k' = k then v else lookupProv rest k

/-- The two provider fields of a model record that the Snapshot Writer
reads; `none` models an absent/null field and `some ""` an empty string
(both falsy in JavaScript). -/
structure ModelRecord where
  inference_provider : Option String
  model_provider : Option String
deriving DecidableEq, Repr

/-- JavaScript `value || 'Unknown'`: absent, null and empty-string
provider names all default to the literal `"Unknown"`. -/
def orUnknown : Option String → String
  | none => "Unknown"
  | some s => if s = "" then "Unknown" else s

/-- The counting loop of `collectAnalyticsData` (lines 119-125): one pass
over the model list, bumping the inference-provider and model-provider
maps once per record. -/
def collectProviderCounts (models : List ModelRecord) :
    List (String × Nat) × List (String × Nat) :=
  models.foldl
    (fun acc model =>
      (bump acc.1 (orUnknown model.inference_provider),
       bump acc.2 (orUnknown model.model_provider)))
    ([], [])

/-- The payload submitted to the RPC:
`(currentModels.length, inferenceProviders, modelProviders)`. -/
def buildSubmission (models : List ModelRecord) :
    Nat × List (String × Nat) × List (String × Nat) :=
  (models.length, (collectProviderCounts models).1,
    (collectProviderCounts models).2)

/-- Outcome of one network round-trip (a Supabase call resolving without
or with an `error`). -/
inductive NetOutcome where
  | ok : NetOutcome
  | fail : NetOutcome
deriving DecidableEq, Repr

/-- Observable outcome of one `collectAnalyticsData` cycle: the
`historicalData` React state afterwards, the `analytics_history` table
afterwards, the payload passed to the RPC (`none` when no RPC was
issued), and whether `setHistoricalData` was fed a fresh re-read of the
table. -/
structure CollectResult where
  hist : List Snapshot
  store : List Snapshot
  submitted : Option (Nat × List (String × Nat) × List (String × Nat))
  reloaded : Bool
deriving DecidableEq, Repr

/-- One run of `collectAnalyticsData` (lines 111-163) against local state
`hist` and table `st` at client/server time `now`.  `rpcNet` is the fate
of the `insert_analytics_snapshot` RPC and `reloadNet` that of the
follow-up `select *` reload.  Note the code keeps only the `error` field
of the RPC response (line 93): `saveAnalyticsSnapshot` returns `true`
whenever the call succeeds, whether or not the guard inserted a row, so
the reload branch does not depend on the guard's boolean. -/
def collectAnalyticsData (models : List ModelRecord)
    (hist st : List Snapshot) (now : Int)
    (rpcNet reloadNet : NetOutcome) : CollectResult :=
  if models.length = 0 then
    ⟨hist, st, none, false⟩
  else
    let sub := buildSubmission models
    match rpcNet with
    | NetOutcome.fail => ⟨hist, st, some sub, false⟩
    | NetOutcome.ok =>
      let g := insert_analytics_snapshot st now sub.1 sub.2.1 sub.2.2
      match reloadNet with
      | NetOutcome.fail => ⟨hist, g.2, some sub, false⟩
      | NetOutcome.ok => ⟨g.2, g.2, some sub, true⟩

/-- A stored `analytics_history` row together with its surrogate `id`
(relevant only to the delete path). -/
structure AnalyticsRow where
  id : Nat
  snap : Snapshot
deriving DecidableEq, Repr

/-- The "clear all" control (`clearData`, lines 466-481):
`delete().neq('id', 0)` removes every row whose `id` differs from 0, so
the rows that remain are exactly those with `id = 0`. -/
def clearData (st : List AnalyticsRow) : List AnalyticsRow :=
  st.filter (fun r => r.id == 0)

/-- One `Map.set`-style update of the per-day bucket list (lines
206-214): the first entry for the same day key is replaced when the new
point's timestamp is strictly later, otherwise kept; a new day key is
appended at the end. -/
def insertDaily : List (Int × Snapshot) → Snapshot → List (Int × Snapshot)
  | [], s => [(dayKey s.timestamp, s)]
  | (d, e) :: rest, s =>
    if d = dayKey s.timestamp then
      if e.timestamp < s.timestamp then (d, s) :: rest else (d, e) :: rest
    else
      (d, e) :: insertDaily rest s

/-- The `dailyData` map of `filteredData`: fold the time-filtered points
through `insertDaily`, starting from the empty map. -/
def dailyBuckets (l : List Snapshot) : List (Int × Snapshot) :=
  l.foldl insertDaily []

/-- Lookup of the first entry with a given day key (JavaScript
`Map.get`). -/
def lookupDay : List (Int × Snapshot) → Int → Option Snapshot
  | [], _ => none
  | (d', e) :: rest, d => if d' = d then some e else lookupDay rest d

/-- The effect of one `insertDaily` step on the entry of a fixed day
`d`, seen through `lookupDay`. -/
def stepDay (d : Int) (acc : Option Snapshot) (s : Snapshot) : Option Snapshot :=
  if dayKey s.timestamp = d then
    match acc with
    | none => some s
    | some e => if e.timestamp < s.timestamp then some s else some e
  else
    acc

/-- Insert a snapshot into a list sorted by ascending timestamp. -/
def insertByTs (s : Snapshot) : List Snapshot → List Snapshot
  | [] => [s]
  | t :: rest =>
    if s.timestamp ≤ t.timestamp then s :: t :: rest else t :: insertByTs s rest

/-- Sort by ascending timestamp (the comparator
`(a, b) => a.timestamp.getTime() - b.timestamp.getTime()`; the day
representatives being sorted always carry pairwise distinct timestamps,
so any sorting algorithm produces this same list). -/
def sortByTs (l : List Snapshot) : List Snapshot := l.foldr insertByTs []

/-- The `filteredData` memo of `ModelCountLineGraph.tsx` (lines 186-222):
return `[]` for an empty history; otherwise drop points before the
range cutoff, bucket the survivors to the latest point per UTC day, and
sort the representatives by ascending timestamp. -/
def filteredData (historicalData : List Snapshot) (timeRange : TimeRange)
    (now : Int) : List Snapshot :=
  match historicalData with
  | [] => []
  | _ =>
    let timeFiltered := historicalData.filter
      (fun p => decide (cutoffTime now timeRange ≤ p.timestamp))
    sortByTs ((dailyBuckets timeFiltered).map Prod.snd)

/-- One per-provider dataset of `chartData` (lines 257-276): one point
per bucketed snapshot, valued `countsMap[provider] || 0`, keyed here by
the inference-provider map. -/
def providerSeriesInf (fd : List Snapshot) (provider : String) :
    List (Int × Nat) :=
  fd.map (fun point =>
    (point.timestamp, lookupProv point.inferenceProviderCounts provider))

/-- Same as `providerSeriesInf` for the model-provider map (lines
279-298). -/
def providerSeriesMod (fd : List Snapshot) (provider : String) :
    List (Int × Nat) :=
  fd.map (fun point =>
    (point.timestamp, lookupProv point.modelProviderCounts provider))

/-- The `allValues` array of `yAxisConfig` (lines 310-322): per bucketed
point, the total count when no provider is selected, plus the looked-up
count of every selected provider of either kind. -/
def yAxisValues (fd : List Snapshot) (selInf selMod : List String) :
    List Nat :=
  fd.flatMap (fun point =>
    (if selInf.isEmpty && selMod.isEmpty then [point.totalCount] else [])
    ++ (if !selInf.isEmpty then
          selInf.map (fun p => lookupProv point.inferenceProviderCounts p)
        else [])
    ++ (if !selMod.isEmpty then
          selMod.map (fun p => lookupProv point.modelProviderCounts p)
        else []))

/-- JavaScript `Math.min(...values)` on a non-empty list. -/
def listMin : List Nat → Nat
  | [] => 0
  | v :: vs => vs.foldl min v

/-- JavaScript `Math.max(...values)` on a non-empty list. -/
def listMax : List Nat → Nat
  | [] => 0
  | v :: vs => vs.foldl max v

/-- Line 331 of `yAxisConfig`:
`range < 5 ? Math.max(2, Math.ceil(range * 0.5)) : Math.ceil(range * 0.1)`.
`Math.ceil(range * 0.5)` and `Math.ceil(range * 0.1)` on the
non-negative integer `range` are the ceiling divisions `(range + 1) / 2`
and `(range + 9) / 10`. -/
def codePadding (range : Nat) : Nat :=
  if range < 5 then max 2 ((range + 1) / 2) else (range + 9) / 10

/-- Lines 338-347 of `yAxisConfig`: the step-size tier table on the
adjusted (padded) range, with `Math.ceil(x / k)` as ceiling division. -/
def codeStep (adjustedRange : Nat) : Nat :=
  if adjustedRange ≤ 10 then 1
  else if adjustedRange ≤ 50 then max 1 ((adjustedRange + 9) / 10)
  else if adjustedRange ≤ 100 then max 5 ((adjustedRange + 14) / 15)
  else max 10 ((adjustedRange + 9) / 10)

/-- The `yAxisConfig` memo (lines 304-354), as `(min, max, stepSize)`.
`Math.max(0, minValue - padding)` is truncated `Nat` subtraction. -/
def yAxisConfig (fd : List Snapshot) (selInf selMod : List String) :
    Nat × Nat × Nat :=
  if fd.length = 0 then (0, 100, 10)
  else
    let allValues := yAxisValues fd selInf selMod
    if allValues.length = 0 then (0, 100, 10)
    else
      let minValue := listMin allValues
      let maxValue := listMax allValues
      let range := maxValue - minValue
      let padding := codePadding range
      let adjustedMin := minValue - padding
      let adjustedMax := maxValue + padding
      let adjustedRange := adjustedMax - adjustedMin
      (adjustedMin, adjustedMax, codeStep adjustedRange)

/-- Padding in the words of spec §4.4, to be compared with the `Nat`
arithmetic of `yAxisConfig`: if `range < 5` then
`max(2, ceil(range * 0.5))`, else `ceil(range * 0.1)`, with true
rational ceilings. -/
def specPadding (range : Int) : Int :=
  if range < 5 then max 2 ⌈(range : ℚ) / 2⌉ else ⌈(range : ℚ) / 10⌉

/-- Step size in the words of spec §4.4's tier table on the padded
range, with true rational ceilings. -/
def specStep (adjustedRange : Int) : Int :=
  if adjustedRange ≤ 10 then 1
  else if adjustedRange ≤ 50 then max 1 ⌈(adjustedRange : ℚ) / 10⌉
  else if adjustedRange ≤ 100 then max 5 ⌈(adjustedRange : ℚ) / 15⌉
  else max 10 ⌈(adjustedRange : ℚ) / 10⌉

/-- Relation between the day-entry accumulator computed over a
timestamp-filtered list (left) and over the full list (right), used to
compare `filteredData` across time ranges: the filtered entry never
leads the full one, the filtered entry always passes the cutoff, and
the two agree as soon as the full entry passes the cutoff. -/
def RelAcc (c : Int) : Option Snapshot → Option Snapshot → Prop
  | none, none => True
  | none, some t => t.timestamp < c
  | some _, none => False
  | some t, some t' =>
    t.timestamp ≤ t'.timestamp ∧ c ≤ t.timestamp ∧
      (c ≤ t'.timestamp → t = t')

/-! ## Basic lemmas about the store and the guard -/

theorem mostRecentTs_eq_none_iff (st : List Snapshot) :
    mostRecentTs st = none ↔ st = [] := by
  cases st <;> simp [mostRecentTs]

theorem mostRecentTs_is_ub (st : List Snapshot) :
    ∀ m, mostRecentTs st = some m → ∀ r ∈ st, r.timestamp ≤ m := by
  induction st with
  | nil => intro m hm r hr; simp at hr
  | cons s rest ih =>
    intro m hm r hr
    rcases List.mem_cons.mp hr with rfl | hr'
    · cases hrest : mostRecentTs rest with
      | none => simp [mostRecentTs, hrest] at hm; omega
      | some m' =>
        simp [mostRecentTs, hrest] at hm
        subst hm; exact le_max_left _ _
    · cases hrest : mostRecentTs rest with
      | none =>
        rw [mostRecentTs_eq_none_iff] at hrest
        subst hrest; simp at hr'
      | some m' =>
        simp [mostRecentTs, hrest] at hm
        subst hm
        exact le_trans (ih m' hrest r hr') (le_max_right _ _)

/-- CLAIM C1.  The guarded insert `insert_analytics_snapshot`: if the
store is empty, or at least 12 hours (boundary inclusive) have passed
since the most recently stored timestamp, exactly one row with the given
fields and `timestamp = now` is appended and the call returns `true`;
otherwise nothing is inserted and it returns `false`. -/
theorem c1_guarded_insert (st : List Snapshot) (now : Int) (tc : Nat)
    (ic mc : List (String × Nat)) :
    (st = [] →
      insert_analytics_snapshot st now tc ic mc =
        (true, st ++ [⟨now, tc, ic, mc⟩]))
  ∧ (∀ last, mostRecentTs st = some last →
      (hours12 ≤ now - last →
        insert_analytics_snapshot st now tc ic mc =
          (true, st ++ [⟨now, tc, ic, mc⟩]))
      ∧ (now - last < hours12 →
        insert_analytics_snapshot st now tc ic mc = (false, st))) := by
  refine ⟨?_, ?_⟩
  · intro h
    subst h
    simp [insert_analytics_snapshot, mostRecentTs]
  · intro last hlast
    refine ⟨?_, ?_⟩
    · intro hgap
      simp [insert_analytics_snapshot, hlast, hgap]
    · intro hsoon
      have : ¬ hours12 ≤ now - last := by omega
      simp [insert_analytics_snapshot, hlast, this]

/-- Witness for C1 at the inclusive boundary: with one row at time 0,
an insert at exactly `now = hours12` succeeds and appends the row. -/
theorem c1_guarded_insert_witness :
    insert_analytics_snapshot [⟨0, 1, [], []⟩] hours12 2 [] [] =
      (true, [⟨0, 1, [], []⟩] ++ [⟨hours12, 2, [], []⟩]) :=
  ((c1_guarded_insert [⟨0, 1, [], []⟩] hours12 2 [] []).2 0 (by decide)).1
    (by decide)

theorem guard_step_inv (st : List Snapshot) (T now : Int) (tc : Nat)
    (ic mc : List (String × Nat))
    (hchain : st.Chain' (fun a b => hours12 ≤ b.timestamp - a.timestamp))
    (hub : ∀ r ∈ st, r.timestamp ≤ T) (hT : T ≤ now) :
    ((insert_analytics_snapshot st now tc ic mc).2).Chain'
        (fun a b => hours12 ≤ b.timestamp - a.timestamp)
    ∧ ∀ r ∈ (insert_analytics_snapshot st now tc ic mc).2,
        r.timestamp ≤ now := by
  cases hlast : mostRecentTs st with
  | none =>
    rw [mostRecentTs_eq_none_iff] at hlast
    subst hlast
    simp [insert_analytics_snapshot, mostRecentTs]
  | some last =>
    by_cases hgap : hours12 ≤ now - last
    · simp only [insert_analytics_snapshot, hlast, if_pos hgap]
      constructor
      · rw [List.chain'_append]
        refine ⟨hchain, List.chain'_singleton _, ?_⟩
        intro x hx y hy
        simp at hy
        subst hy
        obtain ⟨hne, hxl⟩ := List.mem_getLast?_eq_getLast hx
        have hxmem : x ∈ st := hxl ▸ List.getLast_mem hne
        have := mostRecentTs_is_ub st last hlast x hxmem
        simp only []
        omega
      · intro r hr
        rcases List.mem_append.mp hr with hr' | hr'
        · exact le_trans (hub r hr') hT
        · simp at hr'
          subst hr'
          exact le_refl _
    · simp only [insert_analytics_snapshot, hlast, if_neg hgap]
      exact ⟨hchain, fun r hr => le_trans (hub r hr) hT⟩

theorem runInserts_inv (subs : List Submission) :
    ∀ (st : List Snapshot) (T : Int),
      st.Chain' (fun a b => hours12 ≤ b.timestamp - a.timestamp) →
      (∀ r ∈ st, r.timestamp ≤ T) →
      subs.Chain' (fun a b => a.time ≤ b.time) →
      (∀ u ∈ subs.head?, T ≤ u.time) →
      (runInserts st subs).Chain'
        (fun a b => hours12 ≤ b.timestamp - a.timestamp) := by
  induction subs with
  | nil => intro st T hchain _ _ _; exact hchain
  | cons u rest ih =>
    intro st T hchain hub hmono hhead
    have hTu : T ≤ u.time := hhead u rfl
    obtain ⟨hrel, hmono'⟩ := List.chain'_cons'.mp hmono
    have hstep := guard_step_inv st T u.time u.totalModels u.infCounts
      u.modCounts hchain hub hTu
    have hrun : runInserts st (u :: rest) =
        runInserts (insert_analytics_snapshot st u.time u.totalModels
          u.infCounts u.modCounts).2 rest := by
      simp [runInserts]
    rw [hrun]
    exact ih _ u.time hstep.1 hstep.2 hmono' hrel

/-- CLAIM C2.  Starting from the empty store, any sequence of guarded
inserts performed at nondecreasing times leaves the store with
consecutive timestamps at least 12 hours apart. -/
theorem c2_interval_invariant (subs : List Submission)
    (hmono : subs.Chain' (fun a b => a.time ≤ b.time)) :
    (runInserts [] subs).Chain'
      (fun a b => hours12 ≤ b.timestamp - a.timestamp) := by
  refine runInserts_inv subs []
    (match subs with | [] => 0 | u :: _ => u.time)
    List.chain'_nil (by simp) hmono ?_
  cases subs with
  | nil => intro u hu; simp at hu
  | cons u rest => intro v hv; simp at hv; subst hv; exact le_refl _

/-- Witness for C2: three submissions, at times 0, exactly 12 hours, and
one millisecond later (the third is discarded by the guard). -/
theorem c2_interval_invariant_witness :
    (runInserts [] [⟨0, 1, [], []⟩, ⟨hours12, 2, [], []⟩,
        ⟨hours12 + 1, 3, [], []⟩]).Chain'
      (fun a b => hours12 ≤ b.timestamp - a.timestamp) :=
  c2_interval_invariant _ (by norm_num [List.chain'_cons, hours12])

/-! ## Lemmas about provider-count maps -/

theorem sumVals_bump (m : List (String × Nat)) (k : String) :
    sumVals (bump m k) = sumVals m + 1 := by
  induction m with
  | nil => simp [bump, sumVals]
  | cons kv rest ih =>
    obtain ⟨k', v⟩ := kv
    by_cases hk : k' = k
    · simp [bump, hk, sumVals]
      omega
    · simp [bump, hk, sumVals] at ih ⊢
      omega

theorem collect_fold_sums (models : List ModelRecord) :
    ∀ acc : List (String × Nat) × List (String × Nat),
      sumVals (models.foldl
          (fun acc model =>
            (bump acc.1 (orUnknown model.inference_provider),
             bump acc.2 (orUnknown model.model_provider))) acc).1 =
        sumVals acc.1 + models.length
      ∧ sumVals (models.foldl
          (fun acc model =>
            (bump acc.1 (orUnknown model.inference_provider),
             bump acc.2 (orUnknown model.model_provider))) acc).2 =
        sumVals acc.2 + models.length := by
  induction models with
  | nil => intro acc; simp
  | cons m rest ih =>
    intro acc
    simp only [List.foldl_cons, List.length_cons]
    have := ih (bump acc.1 (orUnknown m.inference_provider),
      bump acc.2 (orUnknown m.model_provider))
    rw [this.1, this.2, sumVals_bump, sumVals_bump]
    omega

/-- CLAIM C8.  The submission built by the Snapshot Writer is internally
consistent: the submitted total equals the number of model records, and
both submitted provider-count maps sum to that same number. -/
theorem c8_submission_consistent (models : List ModelRecord) :
    (buildSubmission models).1 = models.length
  ∧ sumVals (buildSubmission models).2.1 = models.length
  ∧ sumVals (buildSubmission models).2.2 = models.length := by
  have h := collect_fold_sums models ([], [])
  refine ⟨rfl, ?_, ?_⟩
  · simpa [buildSubmission, collectProviderCounts, sumVals] using h.1
  · simpa [buildSubmission, collectProviderCounts, sumVals] using h.2

theorem lookupProv_eq_zero_of_not_mem (m : List (String × Nat)) (k : String)
    (h : k ∉ m.map Prod.fst) : lookupProv m k = 0 := by
  induction m with
  | nil => rfl
  | cons kv rest ih =>
    obtain ⟨k', v⟩ := kv
    simp only [List.map_cons, List.mem_cons, not_or] at h
    have hk : k' ≠ k := fun hh => h.1 hh.symm
    simp [lookupProv, hk, ih h.2]

/-- CLAIM C7.  Each per-provider series has exactly one point per
bucketed snapshot (same length as the bucketed sequence), valued by the
provider's count in that snapshot, with value 0 whenever the provider is
absent from the snapshot's map — never omitted or interpolated. -/
theorem c7_zero_fill_series (fd : List Snapshot) (p : String) :
    (providerSeriesInf fd p).length = fd.length
  ∧ (providerSeriesMod fd p).length = fd.length
  ∧ (∀ i : Nat, (providerSeriesInf fd p)[i]? =
      (fd[i]?).map (fun pt =>
        (pt.timestamp, lookupProv pt.inferenceProviderCounts p)))
  ∧ (∀ i : Nat, (providerSeriesMod fd p)[i]? =
      (fd[i]?).map (fun pt =>
        (pt.timestamp, lookupProv pt.modelProviderCounts p)))
  ∧ (∀ pt ∈ fd, p ∉ pt.inferenceProviderCounts.map Prod.fst →
      lookupProv pt.inferenceProviderCounts p = 0)
  ∧ (∀ pt ∈ fd, p ∉ pt.modelProviderCounts.map Prod.fst →
      lookupProv pt.modelProviderCounts p = 0) := by
  refine ⟨List.length_map _ _, List.length_map _ _, ?_, ?_, ?_, ?_⟩
  · intro i; simp [providerSeriesInf, List.getElem?_map]
  · intro i; simp [providerSeriesMod, List.getElem?_map]
  · intro pt _ habs; exact lookupProv_eq_zero_of_not_mem _ _ habs
  · intro pt _ habs; exact lookupProv_eq_zero_of_not_mem _ _ habs

/-- Witness for C7: a provider present in one of two bucketed snapshots
still yields a two-point series, with value 0 at the absent point. -/
theorem c7_zero_fill_series_witness :
    (providerSeriesInf [⟨0, 3, [("A", 2)], []⟩, ⟨86400000, 4, [], []⟩]
        "A").length =
      ([⟨0, 3, [("A", 2)], []⟩, ⟨86400000, 4, [], []⟩] :
        List Snapshot).length
  ∧ lookupProv ([] : List (String × Nat)) "A" = 0 :=
  ⟨(c7_zero_fill_series [⟨0, 3, [("A", 2)], []⟩, ⟨86400000, 4, [], []⟩]
      "A").1,
   (c7_zero_fill_series [⟨0, 3, [("A", 2)], []⟩, ⟨86400000, 4, [], []⟩]
      "A").2.2.2.2.1 ⟨86400000, 4, [], []⟩ (by simp) (by simp)⟩

/-- CLAIM C9, counterexample.  The "clear all" delete is
`delete().neq('id', 0)`: a stored row whose `id` is 0 survives, so the
operation does not unconditionally empty the store. -/
theorem c9_clear_all_cex :
    clearData [⟨0, ⟨0, 1, [], []⟩⟩] ≠ [] := by
  decide

/-- CLAIM C9, amended.  `clearData` removes exactly the rows with
`id ≠ 0`; whenever no stored row carries `id = 0` (the case under the
table's auto-increment ids, which start at 1), the store is left
empty. -/
theorem c9_clear_all_amended (st : List AnalyticsRow) :
    ((∀ r ∈ st, r.id ≠ 0) → clearData st = [])
  ∧ (∀ r, r ∈ clearData st ↔ r ∈ st ∧ r.id = 0) := by
  constructor
  · intro h
    refine List.filter_eq_nil_iff.mpr ?_
    intro r hr
    simp [h r hr]
  · intro r
    simp [clearData, List.mem_filter]

/-- Witness for C9 (amended): a store of rows with ids 1 and 2 is
emptied. -/
theorem c9_clear_all_amended_witness :
    clearData [⟨1, ⟨0, 1, [], []⟩⟩, ⟨2, ⟨hours12, 2, [], []⟩⟩] = [] :=
  (c9_clear_all_amended _).1 (by decide)

/-- CLAIM C10.  With an empty model list the collection step returns
immediately: nothing is submitted to the guard, the store is not
written, the local history is unchanged and no re-read happens; and any
payload that ever is submitted carries a strictly positive total. -/
theorem c10_empty_models_noop (hist st : List Snapshot) (now : Int)
    (rpcNet reloadNet : NetOutcome) :
    collectAnalyticsData [] hist st now rpcNet reloadNet =
      ⟨hist, st, none, false⟩
  ∧ ∀ (models : List ModelRecord) sub,
      (collectAnalyticsData models hist st now rpcNet reloadNet).submitted =
        some sub → 0 < sub.1 := by
  constructor
  · simp [collectAnalyticsData]
  · intro models sub hsub
    cases models with
    | nil => simp [collectAnalyticsData] at hsub
    | cons m rest =>
      cases rpcNet with
      | fail =>
        simp [collectAnalyticsData] at hsub
        rw [← hsub]
        simp [buildSubmission]
      | ok =>
        cases reloadNet with
        | fail =>
          simp [collectAnalyticsData] at hsub
          rw [← hsub]
          simp [buildSubmission]
        | ok =>
          simp [collectAnalyticsData] at hsub
          rw [← hsub]
          simp [buildSubmission]

/-- Witness for C10: concrete no-op on the empty model list, and a
concrete nonempty submission with positive total. -/
theorem c10_empty_models_noop_witness :
    collectAnalyticsData [] [] [⟨0, 1, [], []⟩] 5 NetOutcome.ok
        NetOutcome.ok =
      ⟨[], [⟨0, 1, [], []⟩], none, false⟩
  ∧ 0 < ((1, [("A", 1)], [("B", 1)]) : Nat × List (String × Nat) ×
      List (String × Nat)).1 :=
  ⟨(c10_empty_models_noop [] [⟨0, 1, [], []⟩] 5 NetOutcome.ok
      NetOutcome.ok).1,
   (c10_empty_models_noop [] [⟨0, 1, [], []⟩] 5 NetOutcome.ok
      NetOutcome.ok).2 [⟨some "A", some "B"⟩] (1, [("A", 1)], [("B", 1)])
     (by decide)⟩

/-- CLAIM C5, counterexample.  `saveAnalyticsSnapshot` keeps only the
`error` field of the RPC response and ignores the guard's boolean, so
the local view is re-read even when the guard discarded the submission:
here the store already holds a snapshot at `now`, the guard returns
`false`, yet `reloaded = true`. -/
theorem c5_reload_on_discard_cex :
    (collectAnalyticsData [⟨some "A", some "B"⟩] [] [⟨0, 1, [], []⟩] 0
        NetOutcome.ok NetOutcome.ok).reloaded = true
  ∧ (insert_analytics_snapshot [⟨0, 1, [], []⟩] 0 1 [("A", 1)]
      [("B", 1)]).1 = false := by
  decide

/-- CLAIM C5, amended.  The in-memory view is re-read exactly when the
submission RPC reports no error and the follow-up read succeeds —
regardless of the guard's boolean, which the client discards; a
successful re-read leaves the view equal to the post-insert store; an
RPC error leaves store and local state untouched. -/
theorem c5_reload_amended (models : List ModelRecord)
    (hist st : List Snapshot) (now : Int) (rpcNet reloadNet : NetOutcome) :
    ((collectAnalyticsData models hist st now rpcNet reloadNet).reloaded =
        true ↔
      (models ≠ [] ∧ rpcNet = NetOutcome.ok ∧ reloadNet = NetOutcome.ok))
  ∧ (models ≠ [] → rpcNet = NetOutcome.ok → reloadNet = NetOutcome.ok →
      collectAnalyticsData models hist st now rpcNet reloadNet =
        ⟨(insert_analytics_snapshot st now (buildSubmission models).1
            (buildSubmission models).2.1 (buildSubmission models).2.2).2,
          (insert_analytics_snapshot st now (buildSubmission models).1
            (buildSubmission models).2.1 (buildSubmission models).2.2).2,
          some (buildSubmission models), true⟩)
  ∧ (models ≠ [] → rpcNet = NetOutcome.fail →
      collectAnalyticsData models hist st now rpcNet reloadNet =
        ⟨hist, st, some (buildSubmission models), false⟩)
  ∧ (models ≠ [] → rpcNet = NetOutcome.ok → reloadNet = NetOutcome.fail →
      collectAnalyticsData models hist st now rpcNet reloadNet =
        ⟨hist, (insert_analytics_snapshot st now (buildSubmission models).1
            (buildSubmission models).2.1 (buildSubmission models).2.2).2,
          some (buildSubmission models), false⟩) := by
  cases models with
  | nil =>
    refine ⟨?_, ?_, ?_, ?_⟩ <;> simp [collectAnalyticsData]
  | cons m rest =>
    cases rpcNet <;> cases reloadNet <;>
      refine ⟨?_, ?_, ?_, ?_⟩ <;> simp [collectAnalyticsData]

/-- Witness for C5 (amended): a discarded submission (guard `false`)
with both network calls succeeding still refreshes the view to the
(unchanged) store contents. -/
theorem c5_reload_amended_witness :
    collectAnalyticsData [⟨some "A", some "B"⟩] [] [⟨0, 1, [], []⟩] 0
        NetOutcome.ok NetOutcome.ok =
      ⟨(insert_analytics_snapshot [⟨0, 1, [], []⟩] 0
          (buildSubmission [⟨some "A", some "B"⟩]).1
          (buildSubmission [⟨some "A", some "B"⟩]).2.1
          (buildSubmission [⟨some "A", some "B"⟩]).2.2).2,
        (insert_analytics_snapshot [⟨0, 1, [], []⟩] 0
          (buildSubmission [⟨some "A", some "B"⟩]).1
          (buildSubmission [⟨some "A", some "B"⟩]).2.1
          (buildSubmission [⟨some "A", some "B"⟩]).2.2).2,
        some (buildSubmission [⟨some "A", some "B"⟩]), true⟩ :=
  (c5_reload_amended [⟨some "A", some "B"⟩] [] [⟨0, 1, [], []⟩] 0
      NetOutcome.ok NetOutcome.ok).2.1 (by decide) rfl rfl

/-! ## Lemmas about the per-day bucket map -/

theorem lookupDay_insertDaily (m : List (Int × Snapshot)) (s : Snapshot)
    (d : Int) :
    lookupDay (insertDaily m s) d = stepDay d (lookupDay m d) s := by
  induction m with
  | nil =>
    by_cases hd : dayKey s.timestamp = d <;>
      simp [insertDaily, lookupDay, stepDay, hd]
  | cons p rest ih =>
    obtain ⟨d', e⟩ := p
    simp only [insertDaily]
    by_cases h1 : d' = dayKey s.timestamp
    · rw [if_pos h1]
      by_cases h3 : d' = d
      · subst h3
        have hd : dayKey s.timestamp = d' := h1.symm
        by_cases h2 : e.timestamp < s.timestamp <;>
          simp [lookupDay, stepDay, hd, h2]
      · have hd : ¬ dayKey s.timestamp = d := fun hh => h3 (h1.trans hh)
        by_cases h2 : e.timestamp < s.timestamp <;>
          simp [lookupDay, stepDay, h3, hd, h2]
    · rw [if_neg h1]
      by_cases h3 : d' = d
      · subst h3
        have hd : ¬ dayKey s.timestamp = d' := fun hh => h1 hh.symm
        simp [lookupDay, stepDay, hd]
      · simp [lookupDay, h3, ih]

theorem lookupDay_foldl (l : List Snapshot) :
    ∀ (m : List (Int × Snapshot)) (d : Int),
      lookupDay (l.foldl insertDaily m) d =
        l.foldl (stepDay d) (lookupDay m d) := by
  induction l with
  | nil => intro m d; rfl
  | cons s rest ih =>
    intro m d
    simp only [List.foldl_cons]
    rw [ih, lookupDay_insertDaily]

theorem insertDaily_fst (m : List (Int × Snapshot)) (s : Snapshot)
    (h : ∀ p ∈ m, p.1 = dayKey p.2.timestamp) :
    ∀ p ∈ insertDaily m s, p.1 = dayKey p.2.timestamp := by
  induction m with
  | nil =>
    intro p hp
    simp [insertDaily] at hp
    subst hp
    rfl
  | cons q rest ih =>
    obtain ⟨d', e⟩ := q
    intro p hp
    simp only [insertDaily] at hp
    by_cases h1 : d' = dayKey s.timestamp
    · rw [if_pos h1] at hp
      by_cases h2 : e.timestamp < s.timestamp
      · rw [if_pos h2] at hp
        rcases List.mem_cons.mp hp with rfl | hp'
        · exact h1
        · exact h p (List.mem_cons_of_mem _ hp')
      · rw [if_neg h2] at hp
        exact h p hp
    · rw [if_neg h1] at hp
      rcases List.mem_cons.mp hp with rfl | hp'
      · exact h _ (List.mem_cons_self _ _)
      · exact ih (fun q hq => h q (List.mem_cons_of_mem _ hq)) p hp'

theorem insertDaily_snd_sub (m : List (Int × Snapshot)) (s : Snapshot) :
    ∀ p ∈ insertDaily m s, p.2 = s ∨ p ∈ m := by
  induction m with
  | nil =>
    intro p hp
    simp [insertDaily] at hp
    subst hp
    left
    rfl
  | cons q rest ih =>
    obtain ⟨d', e⟩ := q
    intro p hp
    simp only [insertDaily] at hp
    by_cases h1 : d' = dayKey s.timestamp
    · rw [if_pos h1] at hp
      by_cases h2 : e.timestamp < s.timestamp
      · rw [if_pos h2] at hp
        rcases List.mem_cons.mp hp with rfl | hp'
        · left; rfl
        · right; exact List.mem_cons_of_mem _ hp'
      · rw [if_neg h2] at hp
        right; exact hp
    · rw [if_neg h1] at hp
      rcases List.mem_cons.mp hp with rfl | hp'
      · right; exact List.mem_cons_self _ _
      · rcases ih p hp' with h | h
        · left; exact h
        · right; exact List.mem_cons_of_mem _ h

theorem insertDaily_keys (m : List (Int × Snapshot)) (s : Snapshot) :
    (insertDaily m s).map Prod.fst =
      if dayKey s.timestamp ∈ m.map Prod.fst then m.map Prod.fst
      else m.map Prod.fst ++ [dayKey s.timestamp] := by
  induction m with
  | nil => simp [insertDaily]
  | cons q rest ih =>
    obtain ⟨d', e⟩ := q
    simp only [insertDaily, List.map_cons]
    by_cases h1 : d' = dayKey s.timestamp
    · subst h1
      by_cases h2 : e.timestamp < s.timestamp <;>
        simp [h2, List.mem_cons]
    · have hne : ¬ dayKey s.timestamp = d' := fun hh => h1 hh.symm
      rw [if_neg h1]
      simp only [List.map_cons, ih]
      by_cases hmem : dayKey s.timestamp ∈ rest.map Prod.fst <;>
        simp [List.mem_cons, hne, hmem]

theorem insertDaily_keys_nodup (m : List (Int × Snapshot)) (s : Snapshot)
    (h : (m.map Prod.fst).Nodup) :
    ((insertDaily m s).map Prod.fst).Nodup := by
  rw [insertDaily_keys]
  by_cases hmem : dayKey s.timestamp ∈ m.map Prod.fst
  · simpa [hmem] using h
  · rw [if_neg hmem, List.nodup_append]
    exact ⟨h, List.nodup_singleton _, by simp [List.disjoint_singleton, hmem]⟩

theorem buckets_fst (l : List Snapshot) :
    ∀ m, (∀ p ∈ m, p.1 = dayKey p.2.timestamp) →
      ∀ p ∈ l.foldl insertDaily m, p.1 = dayKey p.2.timestamp := by
  induction l with
  | nil => intro m h; exact h
  | cons s rest ih =>
    intro m h
    exact ih _ (insertDaily_fst m s h)

theorem buckets_keys_nodup (l : List Snapshot) :
    ∀ m, ((m : List (Int × Snapshot)).map Prod.fst).Nodup →
      ((l.foldl insertDaily m).map Prod.fst).Nodup := by
  induction l with
  | nil => intro m h; exact h
  | cons s rest ih =>
    intro m h
    exact ih _ (insertDaily_keys_nodup m s h)

theorem buckets_snd_sub (l : List Snapshot) :
    ∀ m p, p ∈ l.foldl insertDaily m → p ∈ m ∨ p.2 ∈ l := by
  induction l with
  | nil => intro m p hp; left; exact hp
  | cons s rest ih =>
    intro m p hp
    rcases ih _ p hp with h | h
    · rcases insertDaily_snd_sub m s p h with h2 | h2
      · right; rw [h2]; exact List.mem_cons_self _ _
      · left; exact h2
    · right; exact List.mem_cons_of_mem _ h

theorem lookupDay_of_mem (m : List (Int × Snapshot))
    (hnd : (m.map Prod.fst).Nodup) (d : Int) (e : Snapshot)
    (hmem : (d, e) ∈ m) : lookupDay m d = some e := by
  induction m with
  | nil => simp at hmem
  | cons q rest ih =>
    obtain ⟨d', e'⟩ := q
    simp only [List.map_cons, List.nodup_cons] at hnd
    rcases List.mem_cons.mp hmem with heq | hmem'
    · cases heq
      simp [lookupDay]
    · have hd : d' ≠ d := by
        intro hh
        subst hh
        exact hnd.1 (List.mem_map_of_mem Prod.fst hmem')
      simp [lookupDay, hd, ih hnd.2 hmem']

theorem mem_of_lookupDay (m : List (Int × Snapshot)) (d : Int) (e : Snapshot)
    (h : lookupDay m d = some e) : (d, e) ∈ m := by
  induction m with
  | nil => simp [lookupDay] at h
  | cons q rest ih =>
    obtain ⟨d', e'⟩ := q
    by_cases hd : d' = d
    · subst hd
      simp [lookupDay] at h
      subst h
      exact List.mem_cons_self _ _
    · simp [lookupDay, hd] at h
      exact List.mem_cons_of_mem _ (ih h)

/-! ## Lemmas about the per-day fold `stepDay` -/

theorem stepFold_acc_some (d : Int) (l : List Snapshot) :
    ∀ e0 : Snapshot, ∃ e, l.foldl (stepDay d) (some e0) = some e ∧
      e0.timestamp ≤ e.timestamp := by
  induction l with
  | nil => intro e0; exact ⟨e0, rfl, le_refl _⟩
  | cons s rest ih =>
    intro e0
    simp only [List.foldl_cons]
    by_cases h1 : dayKey s.timestamp = d
    · by_cases h2 : e0.timestamp < s.timestamp
      · obtain ⟨e, he, hle⟩ := ih s
        refine ⟨e, ?_, by omega⟩
        rw [← he]
        congr 1
        simp [stepDay, h1, h2]
      · obtain ⟨e, he, hle⟩ := ih e0
        refine ⟨e, ?_, hle⟩
        rw [← he]
        congr 1
        simp [stepDay, h1, h2]
    · obtain ⟨e, he, hle⟩ := ih e0
      refine ⟨e, ?_, hle⟩
      rw [← he]
      congr 1
      simp [stepDay, h1]

theorem stepFold_mem (d : Int) (l : List Snapshot) :
    ∀ acc e, l.foldl (stepDay d) acc = some e →
      acc = some e ∨ (e ∈ l ∧ dayKey e.timestamp = d) := by
  induction l with
  | nil => intro acc e h; left; exact h
  | cons s rest ih =>
    intro acc e h
    simp only [List.foldl_cons] at h
    rcases ih _ e h with hstep | ⟨hmem, hday⟩
    · by_cases h1 : dayKey s.timestamp = d
      · cases acc with
        | none =>
          simp [stepDay, h1] at hstep
          right
          exact ⟨by rw [← hstep]; exact List.mem_cons_self _ _,
            by rw [← hstep]; exact h1⟩
        | some e' =>
          by_cases h2 : e'.timestamp < s.timestamp
          · simp [stepDay, h1, h2] at hstep
            right
            exact ⟨by rw [← hstep]; exact List.mem_cons_self _ _,
              by rw [← hstep]; exact h1⟩
          · simp [stepDay, h1, h2] at hstep
            left
            rw [hstep]
      · simp [stepDay, h1] at hstep
        left
        exact hstep
    · right
      exact ⟨List.mem_cons_of_mem _ hmem, hday⟩

theorem stepFold_max (d : Int) (l : List Snapshot) :
    ∀ acc e, l.foldl (stepDay d) acc = some e →
      ∀ s ∈ l, dayKey s.timestamp = d → s.timestamp ≤ e.timestamp := by
  induction l with
  | nil => intro acc e _ s hs; simp at hs
  | cons s0 rest ih =>
    intro acc e h s hs hday
    simp only [List.foldl_cons] at h
    rcases List.mem_cons.mp hs with rfl | hs'
    · have h1 : ∃ e1, stepDay d acc s = some e1 ∧
          s.timestamp ≤ e1.timestamp := by
        cases acc with
        | none => exact ⟨s, by simp [stepDay, hday], le_refl _⟩
        | some e' =>
          by_cases h2 : e'.timestamp < s.timestamp
          · exact ⟨s, by simp [stepDay, hday, h2], le_refl _⟩
          · exact ⟨e', by simp [stepDay, hday, h2], by omega⟩
      obtain ⟨e1, he1, hle⟩ := h1
      rw [he1] at h
      obtain ⟨e2, he2, hle2⟩ := stepFold_acc_some d rest e1
      rw [he2] at h
      have he : e2 = e := by injection h
      subst he
      omega
    · exact ih _ e h s hs' hday

theorem stepFold_exists (d : Int) (l : List Snapshot) :
    ∀ acc (s : Snapshot), s ∈ l → dayKey s.timestamp = d →
      ∃ e, l.foldl (stepDay d) acc = some e := by
  induction l with
  | nil => intro acc s hs _; simp at hs
  | cons s0 rest ih =>
    intro acc s hs hday
    simp only [List.foldl_cons]
    rcases List.mem_cons.mp hs with rfl | hs'
    · have h1 : ∃ e1, stepDay d acc s = some e1 := by
        cases acc with
        | none => exact ⟨s, by simp [stepDay, hday]⟩
        | some e' =>
          by_cases h2 : e'.timestamp < s.timestamp
          · exact ⟨s, by simp [stepDay, hday, h2]⟩
          · exact ⟨e', by simp [stepDay, hday, h2]⟩
      obtain ⟨e1, he1⟩ := h1
      rw [he1]
      obtain ⟨e, he, _⟩ := stepFold_acc_some d rest e1
      exact ⟨e, he⟩
    · exact ih _ s hs' hday

/-! ## Lemmas about sorting by timestamp -/

theorem insertByTs_perm (s : Snapshot) (l : List Snapshot) :
    (insertByTs s l).Perm (s :: l) := by
  induction l with
  | nil => exact List.Perm.refl _
  | cons t rest ih =>
    by_cases h : s.timestamp ≤ t.timestamp
    · simp only [insertByTs, if_pos h]
      exact List.Perm.refl _
    · simp only [insertByTs, if_neg h]
      exact (List.Perm.cons t ih).trans (List.Perm.swap s t rest)

theorem sortByTs_perm (l : List Snapshot) : (sortByTs l).Perm l := by
  induction l with
  | nil => exact List.Perm.refl _
  | cons s rest ih =>
    exact (insertByTs_perm s (sortByTs rest)).trans (List.Perm.cons s ih)

theorem mem_sortByTs (l : List Snapshot) (a : Snapshot) :
    a ∈ sortByTs l ↔ a ∈ l :=
  (sortByTs_perm l).mem_iff

theorem insertByTs_pairwise_le (s : Snapshot) (l : List Snapshot)
    (h : l.Pairwise (fun a b => a.timestamp ≤ b.timestamp)) :
    (insertByTs s l).Pairwise (fun a b => a.timestamp ≤ b.timestamp) := by
  induction l with
  | nil => simp [insertByTs]
  | cons t rest ih =>
    obtain ⟨ht, hrest⟩ := List.pairwise_cons.mp h
    by_cases hle : s.timestamp ≤ t.timestamp
    · simp only [insertByTs, if_pos hle]
      refine List.pairwise_cons.mpr ⟨?_, h⟩
      intro b hb
      rcases List.mem_cons.mp hb with rfl | hb'
      · exact hle
      · exact le_trans hle (ht b hb')
    · simp only [insertByTs, if_neg hle]
      refine List.pairwise_cons.mpr ⟨?_, ih hrest⟩
      intro b hb
      have hb2 : b ∈ s :: rest := (insertByTs_perm s rest).mem_iff.mp hb
      rcases List.mem_cons.mp hb2 with rfl | hb'
      · omega
      · exact ht b hb'

theorem sortByTs_pairwise_le (l : List Snapshot) :
    (sortByTs l).Pairwise (fun a b => a.timestamp ≤ b.timestamp) := by
  induction l with
  | nil => simp [sortByTs]
  | cons s rest ih => exact insertByTs_pairwise_le s (sortByTs rest) ih

theorem sortByTs_pairwise_of_symm (l : List Snapshot)
    (R : Snapshot → Snapshot → Prop) (hsymm : ∀ {x y}, R x y → R y x)
    (h : l.Pairwise R) : (sortByTs l).Pairwise R :=
  (List.Perm.pairwise_iff hsymm (sortByTs_perm l)).mpr h

theorem sortByTs_pairwise_lt (l : List Snapshot)
    (hne : l.Pairwise (fun a b => a.timestamp ≠ b.timestamp)) :
    (sortByTs l).Pairwise (fun a b => a.timestamp < b.timestamp) := by
  have hne' : (sortByTs l).Pairwise
      (fun a b => a.timestamp ≠ b.timestamp) :=
    sortByTs_pairwise_of_symm l _ (fun h => Ne.symm h) hne
  exact ((sortByTs_pairwise_le l).and hne').imp
    (fun h => lt_of_le_of_ne h.1 h.2)

theorem buckets_day_ne (l : List Snapshot) :
    ((dailyBuckets l).map Prod.snd).Pairwise
      (fun a b => dayKey a.timestamp ≠ dayKey b.timestamp) := by
  have hnd : ((dailyBuckets l).map Prod.fst).Nodup :=
    buckets_keys_nodup l [] (by simp)
  have hfst : ∀ p ∈ dailyBuckets l, p.1 = dayKey p.2.timestamp :=
    buckets_fst l [] (by simp)
  have h1 : (dailyBuckets l).Pairwise (fun p q => p.1 ≠ q.1) :=
    List.pairwise_map.mp hnd
  have h2 : (dailyBuckets l).Pairwise
      (fun p q => dayKey p.2.timestamp ≠ dayKey q.2.timestamp) := by
    refine h1.imp_of_mem ?_
    intro p q hp hq hne hdk
    apply hne
    rw [hfst p hp, hfst q hq, hdk]
  exact List.pairwise_map.mpr h2

theorem buckets_ts_ne (l : List Snapshot) :
    ((dailyBuckets l).map Prod.snd).Pairwise
      (fun a b => a.timestamp ≠ b.timestamp) := by
  refine (buckets_day_ne l).imp ?_
  intro a b hne hts
  exact hne (by rw [hts])

theorem sublist_of_sorted_subset :
    ∀ (l2 l1 : List Snapshot),
      l1.Pairwise (fun a b => a.timestamp < b.timestamp) →
      l2.Pairwise (fun a b => a.timestamp < b.timestamp) →
      (∀ x ∈ l1, x ∈ l2) → l1.Sublist l2 := by
  intro l2
  induction l2 with
  | nil =>
    intro l1 _ _ hsub
    cases l1 with
    | nil => exact List.Sublist.refl _
    | cons a l1' => exact absurd (hsub a (List.mem_cons_self _ _)) (by simp)
  | cons b l2' ih =>
    intro l1 h1 h2 hsub
    cases l1 with
    | nil => exact List.nil_sublist _
    | cons a l1' =>
      obtain ⟨ha1, h1'⟩ := List.pairwise_cons.mp h1
      obtain ⟨hb2, h2'⟩ := List.pairwise_cons.mp h2
      rcases List.mem_cons.mp (hsub a (List.mem_cons_self _ _)) with heq | hmem
      · subst heq
        refine List.Sublist.cons₂ a (ih l1' h1' h2' ?_)
        intro x hx
        rcases List.mem_cons.mp (hsub x (List.mem_cons_of_mem _ hx)) with heq2 | hx2
        · exact absurd (heq2 ▸ ha1 x hx) (lt_irrefl _)
        · exact hx2
      · have hba : b.timestamp < a.timestamp := hb2 a hmem
        refine List.Sublist.cons b (ih (a :: l1') h1 h2' ?_)
        intro x hx
        rcases List.mem_cons.mp (hsub x hx) with heq2 | hx2
        · exfalso
          subst heq2
          rcases List.mem_cons.mp hx with heq3 | hx3
          · rw [heq3] at hba
            exact lt_irrefl _ hba
          · have := ha1 x hx3
            omega
        · exact hx2

/-! ## The `filteredData` pipeline -/

theorem filteredData_eq (data : List Snapshot) (tr : TimeRange) (now : Int) :
    filteredData data tr now =
      sortByTs ((dailyBuckets (data.filter
        (fun p => decide (cutoffTime now tr ≤ p.timestamp)))).map
          Prod.snd) := by
  cases data with
  | nil => rfl
  | cons a as => rfl

theorem mem_filteredData (data : List Snapshot) (tr : TimeRange) (now : Int)
    (s : Snapshot) :
    s ∈ filteredData data tr now ↔
      s ∈ (dailyBuckets (data.filter
        (fun p => decide (cutoffTime now tr ≤ p.timestamp)))).map
          Prod.snd := by
  rw [filteredData_eq, mem_sortByTs]

/-- CLAIM C3.  `filteredData` drops the snapshots that predate the range
cutoff, keeps for each UTC calendar day exactly one surviving snapshot —
one of maximal timestamp for that day — and returns the kept snapshots
strictly sorted by ascending timestamp; in particular two in-range
same-day snapshots with different timestamps yield exactly the later
one. -/
theorem c3_daily_bucketing (data : List Snapshot) (tr : TimeRange)
    (now : Int) :
    (∀ s ∈ filteredData data tr now,
        s ∈ data ∧ cutoffTime now tr ≤ s.timestamp)
  ∧ (filteredData data tr now).Pairwise
      (fun a b => a.timestamp < b.timestamp)
  ∧ (filteredData data tr now).Pairwise
      (fun a b => dayKey a.timestamp ≠ dayKey b.timestamp)
  ∧ (∀ s ∈ data, cutoffTime now tr ≤ s.timestamp →
      ∃ t ∈ filteredData data tr now,
        dayKey t.timestamp = dayKey s.timestamp ∧
          s.timestamp ≤ t.timestamp)
  ∧ (∀ t ∈ filteredData data tr now, ∀ s ∈ data,
      cutoffTime now tr ≤ s.timestamp →
      dayKey s.timestamp = dayKey t.timestamp →
      s.timestamp ≤ t.timestamp)
  ∧ (∀ s1 s2 : Snapshot, dayKey s1.timestamp = dayKey s2.timestamp →
      s1.timestamp < s2.timestamp → cutoffTime now tr ≤ s1.timestamp →
      filteredData [s1, s2] tr now = [s2]) := by
  refine ⟨?_, ?_, ?_, ?_, ?_, ?_⟩
  · intro s hs
    rw [mem_filteredData] at hs
    obtain ⟨p, hp, hps⟩ := List.mem_map.mp hs
    rcases buckets_snd_sub _ [] p hp with h | h
    · simp at h
    · rw [hps] at h
      obtain ⟨hmem, hdec⟩ := List.mem_filter.mp h
      exact ⟨hmem, of_decide_eq_true hdec⟩
  · rw [filteredData_eq]
    exact sortByTs_pairwise_lt _ (buckets_ts_ne _)
  · rw [filteredData_eq]
    exact sortByTs_pairwise_of_symm _ _ (fun h => Ne.symm h)
      (buckets_day_ne _)
  · intro s hs hcut
    have hsg : s ∈ data.filter
        (fun p => decide (cutoffTime now tr ≤ p.timestamp)) :=
      List.mem_filter.mpr ⟨hs, decide_eq_true hcut⟩
    obtain ⟨e, he⟩ := stepFold_exists (dayKey s.timestamp) _ none s hsg rfl
    have hday : dayKey e.timestamp = dayKey s.timestamp := by
      rcases stepFold_mem _ _ none e he with h | ⟨_, h⟩
      · simp at h
      · exact h
    have hle : s.timestamp ≤ e.timestamp :=
      stepFold_max _ _ none e he s hsg rfl
    have hlk : lookupDay (dailyBuckets (data.filter
        (fun p => decide (cutoffTime now tr ≤ p.timestamp))))
        (dayKey s.timestamp) = some e := by
      rw [dailyBuckets, lookupDay_foldl]
      exact he
    refine ⟨e, ?_, hday, hle⟩
    rw [mem_filteredData]
    exact List.mem_map.mpr ⟨_, mem_of_lookupDay _ _ _ hlk, rfl⟩
  · intro t ht s hs hcut hday
    rw [mem_filteredData] at ht
    obtain ⟨p, hp, hpt⟩ := List.mem_map.mp ht
    have hfst : p.1 = dayKey p.2.timestamp :=
      buckets_fst _ [] (by simp) p hp
    have hnd : ((dailyBuckets (data.filter
        (fun q => decide (cutoffTime now tr ≤ q.timestamp)))).map
          Prod.fst).Nodup :=
      buckets_keys_nodup _ [] (by simp)
    have hlk : lookupDay (dailyBuckets (data.filter
        (fun q => decide (cutoffTime now tr ≤ q.timestamp)))) p.1 =
        some p.2 := by
      refine lookupDay_of_mem _ hnd _ _ ?_
      rcases p with ⟨d, e⟩
      exact hp
    rw [dailyBuckets, lookupDay_foldl] at hlk
    have hsg : s ∈ data.filter
        (fun q => decide (cutoffTime now tr ≤ q.timestamp)) :=
      List.mem_filter.mpr ⟨hs, decide_eq_true hcut⟩
    have hsd : dayKey s.timestamp = p.1 := by
      rw [hfst, hpt, hday]
    have := stepFold_max p.1 _ none p.2 hlk s hsg hsd
    rw [hpt] at this
    exact this
  · intro s1 s2 hday hlt hcut
    have hc2 : cutoffTime now tr ≤ s2.timestamp := by omega
    have hne : dayKey s1.timestamp = dayKey s2.timestamp := hday
    simp [filteredData, List.filter_cons, decide_eq_true hcut,
      decide_eq_true hc2, dailyBuckets, insertDaily, hne, hlt,
      sortByTs, insertByTs]

/-- Witness for C3: two same-day snapshots (02:00 and 22:00 UTC of day
0) reduce to the single later snapshot under the 7-day range. -/
theorem c3_daily_bucketing_witness :
    filteredData [⟨7200000, 10, [], []⟩, ⟨79200000, 12, [], []⟩]
      TimeRange.d7 86400000 = [⟨79200000, 12, [], []⟩] :=
  (c3_daily_bucketing [] TimeRange.d7 86400000).2.2.2.2.2
    ⟨7200000, 10, [], []⟩ ⟨79200000, 12, [], []⟩ (by decide) (by decide)
    (by decide)

/-! ## Comparing the pipeline across time ranges -/

theorem relAcc_final (c : Int) (acc2 acc1 : Option Snapshot) (e : Snapshot)
    (h : RelAcc c acc2 acc1) (h2 : acc2 = some e) : acc1 = some e := by
  subst h2
  cases acc1 with
  | none => simp [RelAcc] at h
  | some t' =>
    obtain ⟨hle, hc, heq⟩ := h
    rw [heq (by omega)]

theorem stepFold_filter (c d : Int) (l : List Snapshot) :
    ∀ acc2 acc1, RelAcc c acc2 acc1 →
      RelAcc c
        ((l.filter (fun s => decide (c ≤ s.timestamp))).foldl
          (stepDay d) acc2)
        (l.foldl (stepDay d) acc1) := by
  induction l with
  | nil => intro acc2 acc1 h; exact h
  | cons s rest ih =>
    intro acc2 acc1 h
    by_cases hc : c ≤ s.timestamp
    · simp only [List.filter_cons, decide_eq_true_eq, hc, if_true]
      simp only [List.foldl_cons]
      apply ih
      by_cases h1 : dayKey s.timestamp = d
      · cases acc2 with
        | none =>
          cases acc1 with
          | none =>
            simp only [stepDay, if_pos h1]
            exact ⟨le_refl _, hc, fun _ => rfl⟩
          | some t' =>
            have ht' : t'.timestamp < c := h
            have hlt : t'.timestamp < s.timestamp := by omega
            simp only [stepDay, if_pos h1, hlt, if_pos hlt]
            exact ⟨le_refl _, hc, fun _ => rfl⟩
        | some t =>
          cases acc1 with
          | none => exact absurd h (by simp [RelAcc])
          | some t' =>
            obtain ⟨hle, hct, himp⟩ := h
            by_cases h2 : t'.timestamp < s.timestamp
            · have h3 : t.timestamp < s.timestamp := by omega
              simp only [stepDay, if_pos h1, if_pos h2, if_pos h3]
              exact ⟨le_refl _, hc, fun _ => rfl⟩
            · have heq : t = t' := himp (by omega)
              subst heq
              have h3 : ¬ t.timestamp < s.timestamp := by omega
              simp only [stepDay, if_pos h1, if_neg h3]
              exact ⟨hle, hct, himp⟩
      · simp only [stepDay, if_neg h1]
        exact h
    · simp only [List.filter_cons, decide_eq_true_eq, hc, if_false]
      simp only [List.foldl_cons]
      apply ih
      by_cases h1 : dayKey s.timestamp = d
      · cases acc1 with
        | none =>
          cases acc2 with
          | some t => exact absurd h (by simp [RelAcc])
          | none =>
            simp only [stepDay, if_pos h1]
            show s.timestamp < c
            omega
        | some t' =>
          cases acc2 with
          | none =>
            have ht' : t'.timestamp < c := h
            by_cases h2 : t'.timestamp < s.timestamp
            · simp only [stepDay, if_pos h1, if_pos h2]
              show s.timestamp < c
              omega
            · simp only [stepDay, if_pos h1, if_neg h2]
              exact ht'
          | some t =>
            obtain ⟨hle, hct, himp⟩ := h
            by_cases h2 : t'.timestamp < s.timestamp
            · simp only [stepDay, if_pos h1, if_pos h2]
              refine ⟨by omega, hct, ?_⟩
              intro hcs
              exact absurd hcs hc
            · simp only [stepDay, if_pos h1, if_neg h2]
              exact ⟨hle, hct, himp⟩
      · simp only [stepDay, if_neg h1]
        exact h

theorem buckets_filter_sub (g : List Snapshot) (c : Int) (e : Snapshot)
    (he : e ∈ (dailyBuckets (g.filter
      (fun s => decide (c ≤ s.timestamp)))).map Prod.snd) :
    e ∈ (dailyBuckets g).map Prod.snd := by
  obtain ⟨p, hp, hpe⟩ := List.mem_map.mp he
  obtain ⟨d, e'⟩ := p
  have hnd : ((dailyBuckets (g.filter
      (fun s => decide (c ≤ s.timestamp)))).map Prod.fst).Nodup :=
    buckets_keys_nodup _ [] (by simp)
  have hlk : lookupDay (dailyBuckets (g.filter
      (fun s => decide (c ≤ s.timestamp)))) d = some e' :=
    lookupDay_of_mem _ hnd d e' hp
  rw [dailyBuckets, lookupDay_foldl] at hlk
  have hrel := stepFold_filter c d g none none trivial
  have hfull : g.foldl (stepDay d) none = some e' :=
    relAcc_final c _ _ e' hrel hlk
  have hlk2 : lookupDay (dailyBuckets g) d = some e' := by
    rw [dailyBuckets, lookupDay_foldl]
    exact hfull
  rw [← hpe]
  exact List.mem_map.mpr ⟨(d, e'), mem_of_lookupDay _ _ _ hlk2, rfl⟩

theorem filteredData_sublist_aux (data : List Snapshot) (now : Int)
    (t1 t2 : TimeRange)
    (hp : ∀ s ∈ data, cutoffTime now t2 ≤ s.timestamp →
      cutoffTime now t1 ≤ s.timestamp) :
    (filteredData data t2 now).Sublist (filteredData data t1 now) := by
  have hff : data.filter
      (fun p => decide (cutoffTime now t2 ≤ p.timestamp)) =
      (data.filter (fun p => decide (cutoffTime now t1 ≤ p.timestamp))).filter
        (fun p => decide (cutoffTime now t2 ≤ p.timestamp)) := by
    rw [List.filter_filter]
    refine (List.filter_congr ?_).symm
    intro a ha
    by_cases h2 : cutoffTime now t2 ≤ a.timestamp
    · simp [decide_eq_true h2, decide_eq_true (hp a ha h2)]
    · simp [decide_eq_false h2]
  refine sublist_of_sorted_subset _ _ ?_ ?_ ?_
  · rw [filteredData_eq]
    exact sortByTs_pairwise_lt _ (buckets_ts_ne _)
  · rw [filteredData_eq]
    exact sortByTs_pairwise_lt _ (buckets_ts_ne _)
  · intro x hx
    rw [mem_filteredData] at hx
    rw [mem_filteredData]
    rw [hff] at hx
    exact buckets_filter_sub _ _ _ hx

/-- CLAIM C6, counterexample.  The claim fails for a snapshot dated
before the epoch when the current time is close to the epoch: with
`now = 0` and one snapshot one day before the epoch, the `'30d'` cutoff
(`now - 30d < 0`) admits the snapshot while the `'all'` cutoff
(`new Date(0)`, the epoch itself) rejects it, so the `'30d'` series is
not a subsequence of the `'all'` series. -/
theorem c6_range_monotone_cex :
    ¬ (filteredData [⟨-86400000, 5, [], []⟩] TimeRange.d30 0).Sublist
        (filteredData [⟨-86400000, 5, [], []⟩] TimeRange.all 0) := by
  intro h
  have h30 : filteredData [⟨-86400000, 5, [], []⟩] TimeRange.d30 0 =
      [⟨-86400000, 5, [], []⟩] := by decide
  have hall : filteredData [⟨-86400000, 5, [], []⟩] TimeRange.all 0 =
      [] := by decide
  rw [h30, hall] at h
  simpa using h.length_le

/-- CLAIM C6, amended.  At a common current time, the `'24h'` series is
a subsequence of the `'7d'` series, which is a subsequence of the
`'30d'` series; the `'30d'` series is a subsequence of the `'all'`
series provided no snapshot predates the epoch (true of every stored
snapshot, whose timestamps are server-assigned wall-clock times). -/
theorem c6_range_monotone (data : List Snapshot) (now : Int) :
    (filteredData data TimeRange.h24 now).Sublist
      (filteredData data TimeRange.d7 now)
  ∧ (filteredData data TimeRange.d7 now).Sublist
      (filteredData data TimeRange.d30 now)
  ∧ ((∀ s ∈ data, 0 ≤ s.timestamp) →
      (filteredData data TimeRange.d30 now).Sublist
        (filteredData data TimeRange.all now)) := by
  refine ⟨?_, ?_, ?_⟩
  · refine filteredData_sublist_aux data now TimeRange.d7 TimeRange.h24 ?_
    intro s _ h
    simp only [cutoffTime] at h ⊢
    omega
  · refine filteredData_sublist_aux data now TimeRange.d30 TimeRange.d7 ?_
    intro s _ h
    simp only [cutoffTime] at h ⊢
    omega
  · intro h0
    refine filteredData_sublist_aux data now TimeRange.all TimeRange.d30 ?_
    intro s hs _
    simpa [cutoffTime] using h0 s hs

/-- Witness for C6 (amended): three post-epoch snapshots on distinct
days, evaluated at a concrete current time. -/
theorem c6_range_monotone_witness :
    (filteredData [⟨0, 1, [], []⟩, ⟨86400000 * 29, 2, [], []⟩,
        ⟨86400000 * 30, 3, [], []⟩] TimeRange.d30
      (86400000 * 30)).Sublist
      (filteredData [⟨0, 1, [], []⟩, ⟨86400000 * 29, 2, [], []⟩,
        ⟨86400000 * 30, 3, [], []⟩] TimeRange.all (86400000 * 30)) :=
  (c6_range_monotone [⟨0, 1, [], []⟩, ⟨86400000 * 29, 2, [], []⟩,
      ⟨86400000 * 30, 3, [], []⟩] (86400000 * 30)).2.2 (by decide)

/-! ## Lemmas for the y-axis computation -/

theorem foldl_min_le (vs : List Nat) :
    ∀ acc, vs.foldl min acc ≤ acc ∧ ∀ v ∈ vs, vs.foldl min acc ≤ v := by
  induction vs with
  | nil => intro acc; exact ⟨le_refl _, by simp⟩
  | cons w rest ih =>
    intro acc
    refine ⟨le_trans (ih (min acc w)).1 (min_le_left _ _), ?_⟩
    intro v hv
    rcases List.mem_cons.mp hv with rfl | hv'
    · exact le_trans (ih (min acc v)).1 (min_le_right _ _)
    · exact (ih _).2 v hv'

theorem le_foldl_max (vs : List Nat) :
    ∀ acc, acc ≤ vs.foldl max acc ∧ ∀ v ∈ vs, v ≤ vs.foldl max acc := by
  induction vs with
  | nil => intro acc; exact ⟨le_refl _, by simp⟩
  | cons w rest ih =>
    intro acc
    refine ⟨le_trans (le_max_left _ _) (ih (max acc w)).1, ?_⟩
    intro v hv
    rcases List.mem_cons.mp hv with rfl | hv'
    · exact le_trans (le_max_right _ _) (ih (max acc v)).1
    · exact (ih _).2 v hv'

theorem listMin_le_mem (l : List Nat) (v : Nat) (hv : v ∈ l) :
    listMin l ≤ v := by
  cases l with
  | nil => simp at hv
  | cons v0 vs =>
    rcases List.mem_cons.mp hv with rfl | hv'
    · exact (foldl_min_le vs v).1
    · exact (foldl_min_le vs v0).2 v hv'

theorem le_listMax_mem (l : List Nat) (v : Nat) (hv : v ∈ l) :
    v ≤ listMax l := by
  cases l with
  | nil => simp at hv
  | cons v0 vs =>
    rcases List.mem_cons.mp hv with rfl | hv'
    · exact (le_foldl_max vs v).1
    · exact (le_foldl_max vs v0).2 v hv'

theorem listMin_le_listMax (l : List Nat) (h : l ≠ []) :
    listMin l ≤ listMax l := by
  cases l with
  | nil => exact absurd rfl h
  | cons v vs =>
    exact le_trans (listMin_le_mem _ v (List.mem_cons_self _ _))
      (le_listMax_mem _ v (List.mem_cons_self _ _))

theorem ceil_natCast_div (n k : Nat) (hk : 0 < k) :
    ⌈(n : ℚ) / (k : ℚ)⌉ = (((n + k - 1) / k : Nat) : ℤ) := by
  have hq := Nat.div_add_mod (n + k - 1) k
  have hr : (n + k - 1) % k < k := Nat.mod_lt _ hk
  have h1 : n ≤ k * ((n + k - 1) / k) := by omega
  have h2 : k * ((n + k - 1) / k) < n + k := by omega
  have hkq : (0 : ℚ) < (k : ℚ) := by exact_mod_cast hk
  rw [Int.ceil_eq_iff, Int.cast_natCast]
  constructor
  · rw [lt_div_iff₀ hkq]
    have h2q : ((k : ℚ)) * (((n + k - 1) / k : Nat) : ℚ) <
        (n : ℚ) + (k : ℚ) := by exact_mod_cast h2
    nlinarith [h2q]
  · rw [div_le_iff₀ hkq]
    have h1q : (n : ℚ) ≤ ((k : ℚ)) * (((n + k - 1) / k : Nat) : ℚ) := by
      exact_mod_cast h1
    nlinarith [h1q]

theorem natSub_toInt (a b : Nat) :
    ((a - b : Nat) : ℤ) = max 0 ((a : ℤ) - (b : ℤ)) := by
  rcases le_total b a with h | h
  · rw [Nat.cast_sub h, max_eq_right (by omega)]
  · rw [Nat.sub_eq_zero_of_le h, max_eq_left (by omega)]
    rfl

theorem specPadding_natCast (range : Nat) :
    specPadding (range : ℤ) = ((codePadding range : Nat) : ℤ) := by
  have hcast : (((range : ℤ)) : ℚ) = ((range : Nat) : ℚ) := by
    rw [Int.cast_natCast]
  simp only [specPadding, codePadding, hcast]
  by_cases h : range < 5
  · have hz : (range : ℤ) < 5 := by exact_mod_cast h
    rw [if_pos hz, if_pos h,
      show (2 : ℚ) = ((2 : ℕ) : ℚ) by norm_num,
      ceil_natCast_div range 2 (by norm_num)]
    omega
  · have hz : ¬ (range : ℤ) < 5 := by exact_mod_cast h
    rw [if_neg hz, if_neg h,
      show (10 : ℚ) = ((10 : ℕ) : ℚ) by norm_num,
      ceil_natCast_div range 10 (by norm_num)]
    omega

theorem specStep_natCast (r : Nat) :
    specStep (r : ℤ) = ((codeStep r : Nat) : ℤ) := by
  have hcast : (((r : ℤ)) : ℚ) = ((r : Nat) : ℚ) := by
    rw [Int.cast_natCast]
  simp only [specStep, codeStep, hcast]
  by_cases h1 : r ≤ 10
  · have hz : ((r : ℤ)) ≤ 10 := by exact_mod_cast h1
    rw [if_pos hz, if_pos h1]
    norm_num
  · have hz : ¬ ((r : ℤ)) ≤ 10 := by exact_mod_cast h1
    by_cases h2 : r ≤ 50
    · have hz2 : ((r : ℤ)) ≤ 50 := by exact_mod_cast h2
      rw [if_neg hz, if_pos hz2, if_neg h1, if_pos h2,
        show (10 : ℚ) = ((10 : ℕ) : ℚ) by norm_num,
        ceil_natCast_div r 10 (by norm_num)]
      omega
    · have hz2 : ¬ ((r : ℤ)) ≤ 50 := by exact_mod_cast h2
      by_cases h3 : r ≤ 100
      · have hz3 : ((r : ℤ)) ≤ 100 := by exact_mod_cast h3
        rw [if_neg hz, if_neg hz2, if_pos hz3, if_neg h1, if_neg h2,
          if_pos h3,
          show (15 : ℚ) = ((15 : ℕ) : ℚ) by norm_num,
          ceil_natCast_div r 15 (by norm_num)]
        omega
      · have hz3 : ¬ ((r : ℤ)) ≤ 100 := by exact_mod_cast h3
        rw [if_neg hz, if_neg hz2, if_neg hz3, if_neg h1, if_neg h2,
          if_neg h3,
          show (10 : ℚ) = ((10 : ℕ) : ℚ) by norm_num,
          ceil_natCast_div r 10 (by norm_num)]
        omega

theorem yAxisConfig_eq (fd : List Snapshot) (selInf selMod : List String)
    (hfd0 : ¬ fd.length = 0)
    (hv0 : ¬ (yAxisValues fd selInf selMod).length = 0) :
    yAxisConfig fd selInf selMod =
      (listMin (yAxisValues fd selInf selMod) -
         codePadding (listMax (yAxisValues fd selInf selMod) -
           listMin (yAxisValues fd selInf selMod)),
       listMax (yAxisValues fd selInf selMod) +
         codePadding (listMax (yAxisValues fd selInf selMod) -
           listMin (yAxisValues fd selInf selMod)),
       codeStep ((listMax (yAxisValues fd selInf selMod) +
           codePadding (listMax (yAxisValues fd selInf selMod) -
             listMin (yAxisValues fd selInf selMod))) -
         (listMin (yAxisValues fd selInf selMod) -
           codePadding (listMax (yAxisValues fd selInf selMod) -
             listMin (yAxisValues fd selInf selMod))))) := by
  simp only [yAxisConfig]
  rw [if_neg hfd0, if_neg hv0]

/-- CLAIM C4.  The y-axis configuration: the defaults `(0, 100, 10)` on
an empty value set; otherwise, with `range = max - min` and the spec's
padding `max(2, ceil(range/2))` below range 5 and `ceil(range/10)`
above (true rational ceilings via `specPadding`), the bounds are
`[max(0, min - padding), max + padding]` and the step follows the
spec's tier table (`specStep`) on the padded range; consequently the
axis encloses every plotted value and its minimum is never negative. -/
theorem c4_axis_config (fd : List Snapshot) (selInf selMod : List String) :
    ((fd = [] ∨ yAxisValues fd selInf selMod = []) →
      yAxisConfig fd selInf selMod = (0, 100, 10))
  ∧ (fd ≠ [] → yAxisValues fd selInf selMod ≠ [] →
      (∀ v ∈ yAxisValues fd selInf selMod,
        (yAxisConfig fd selInf selMod).1 ≤ v ∧
          v ≤ (yAxisConfig fd selInf selMod).2.1)
      ∧ (0 : ℤ) ≤ ((yAxisConfig fd selInf selMod).1 : ℤ)
      ∧ (((yAxisConfig fd selInf selMod).1 : ℤ) =
          max 0 ((listMin (yAxisValues fd selInf selMod) : ℤ) -
            specPadding ((listMax (yAxisValues fd selInf selMod) : ℤ) -
              (listMin (yAxisValues fd selInf selMod) : ℤ))))
      ∧ (((yAxisConfig fd selInf selMod).2.1 : ℤ) =
          (listMax (yAxisValues fd selInf selMod) : ℤ) +
            specPadding ((listMax (yAxisValues fd selInf selMod) : ℤ) -
              (listMin (yAxisValues fd selInf selMod) : ℤ)))
      ∧ (((yAxisConfig fd selInf selMod).2.2 : ℤ) =
          specStep (((yAxisConfig fd selInf selMod).2.1 : ℤ) -
            ((yAxisConfig fd selInf selMod).1 : ℤ)))) := by
  constructor
  · intro h
    rcases h with h | h
    · simp [yAxisConfig, h]
    · by_cases hfd : fd = []
      · simp [yAxisConfig, hfd]
      · simp [yAxisConfig, List.length_eq_zero, hfd, h]
  · intro hfd hvals
    have hfd0 : ¬ fd.length = 0 := by
      simpa [List.length_eq_zero] using hfd
    have hv0 : ¬ (yAxisValues fd selInf selMod).length = 0 := by
      simpa [List.length_eq_zero] using hvals
    rw [yAxisConfig_eq fd selInf selMod hfd0 hv0]
    have hmnmx : listMin (yAxisValues fd selInf selMod) ≤
        listMax (yAxisValues fd selInf selMod) :=
      listMin_le_listMax _ hvals
    have hcastR : (listMax (yAxisValues fd selInf selMod) : ℤ) -
        (listMin (yAxisValues fd selInf selMod) : ℤ) =
        ((listMax (yAxisValues fd selInf selMod) -
          listMin (yAxisValues fd selInf selMod) : Nat) : ℤ) := by
      omega
    refine ⟨?_, ?_, ?_, ?_, ?_⟩
    · intro v hv
      have h1 := listMin_le_mem _ v hv
      have h2 := le_listMax_mem _ v hv
      constructor
      · simp only []
        omega
      · simp only []
        omega
    · exact Int.natCast_nonneg _
    · rw [hcastR, specPadding_natCast, natSub_toInt]
    · rw [hcastR, specPadding_natCast]
      push_cast
      ring
    · rw [show ((listMax (yAxisValues fd selInf selMod) +
          codePadding (listMax (yAxisValues fd selInf selMod) -
            listMin (yAxisValues fd selInf selMod)) : Nat) : ℤ) -
          ((listMin (yAxisValues fd selInf selMod) -
            codePadding (listMax (yAxisValues fd selInf selMod) -
              listMin (yAxisValues fd selInf selMod)) : Nat) : ℤ) =
          (((listMax (yAxisValues fd selInf selMod) +
            codePadding (listMax (yAxisValues fd selInf selMod) -
              listMin (yAxisValues fd selInf selMod))) -
           (listMin (yAxisValues fd selInf selMod) -
            codePadding (listMax (yAxisValues fd selInf selMod) -
              listMin (yAxisValues fd selInf selMod))) : Nat) : ℤ) from by
        omega]
      rw [specStep_natCast]

/-- Witness for C4, the spec's Scenario B: a single snapshot with total
42 and no selections gives axis `[40, 44]` with step 1. -/
theorem c4_axis_config_witness :
    (yAxisConfig [⟨0, 42, [], []⟩] [] []).1 ≤ 42
  ∧ 42 ≤ (yAxisConfig [⟨0, 42, [], []⟩] [] []).2.1
  ∧ (0 : ℤ) ≤ ((yAxisConfig [⟨0, 42, [], []⟩] [] []).1 : ℤ) :=
  ⟨(((c4_axis_config [⟨0, 42, [], []⟩] [] []).2 (by decide)
      (by decide)).1 42 (by decide)).1,
   (((c4_axis_config [⟨0, 42, [], []⟩] [] []).2 (by decide)
      (by decide)).1 42 (by decide)).2,
   ((c4_axis_config [⟨0, 42, [], []⟩] [] []).2 (by decide)
      (by decide)).2.1⟩

end AiLand
